import Mathlib

/-!
# Verification of the bouncing-sprite SSH terminal program

A shallow embedding of the repository's two animation variants and of the
session registry, over exact rationals.

* `src/app.rs` — the SSH-server animation (`App`): bounce physics
  (`check_bounds`, `reverse_sx`, `reverse_sy`, `generate_magnitude`),
  Euler integration (`tick`), and component-wise mode selection
  (`is_scared`).
* `src/main.rs` — the standalone variant (`MainApp`): same bounce loop but
  with its own `generate_magnitude` (odds 1/5 on both axes) and a stored
  `use_scared` flag set from the Euclidean speed each tick.
* `src/app.rs::load_to_pixel_map` — sprite loading with the row-squashing
  rule, modelled as an association list with hash-map overwrite semantics.
* `src/server.rs` — registry mutation performed by the connection handlers
  (`channel_close` removal, the `data` quit handler, and the `unwrap`-ing
  resize handlers).

All `f64` arithmetic relevant to the claims is dyadic-rational and exact in
IEEE double precision, so ℚ is a faithful carrier.  The random source
`rng.gen_range(0.0..1.0)` is modelled as a stream `ℕ → ℚ` of samples
together with a cursor `k`; each call consumes one sample.
-/

set_option autoImplicit false

namespace RobertSsh

/-- Rust's `f64::signum` on non-NaN inputs, over ℚ: `-1` for negatives,
`1` otherwise (ℚ has no negative zero, and `(0.0_f64).signum() == 1.0`). -/
def fsignum (q : ℚ) : ℚ := if q < 0 then -1 else 1

/-! ## The SSH-server animation state, from `src/app.rs` -/

/-- `App` from `src/app.rs` (the fields the physics reads and writes).
`rng`/`k` model the `ThreadRng`: `rng k` is the `k`-th uniform sample in
`[0,1)` drawn by `gen_range(0.0..1.0)`. -/
structure App where
  offset : ℚ × ℚ
  sx : ℚ
  sy : ℚ
  rng : ℕ → ℚ
  k : ℕ

/-- One call to `self.rng.gen_range(0.0..1.0)`: yields the current sample
and advances the cursor. -/
def gen_range (a : App) : ℚ × App :=
  (a.rng a.k, { a with k := a.k + 1 })

/-- `App::generate_magnitude` from `src/app.rs` lines 158-166:
odds are 1/2 on the x axis and 1/5 on the y axis; the burst value is 20.0
on x and 5.0 on y; otherwise the given default is kept. -/
def generate_magnitude (a : App) (default : ℚ) (is_x : Bool) : ℚ × App :=
  let odds : ℚ := if is_x then 1/2 else 1/5
  let crazy_value : ℚ := if is_x then 20 else 5
  let u := gen_range a
  (if u.1 < odds then crazy_value else default, u.2)

/-- `App::reverse_sy` from `src/app.rs`: `sy = -sy.signum() * magnitude`
with the magnitude drawn by `generate_magnitude(1.0, false)`. -/
def reverse_sy (a : App) : App :=
  let m := generate_magnitude a 1 false
  { m.2 with sy := -(fsignum a.sy) * m.1 }

/-- `App::reverse_sx` from `src/app.rs`: `sx = -sx.signum() * magnitude`
with the magnitude drawn by `generate_magnitude(1.5, true)`. -/
def reverse_sx (a : App) : App :=
  let m := generate_magnitude a (3/2) true
  { m.2 with sx := -(fsignum a.sx) * m.1 }

/-- `App::check_bounds` from `src/app.rs` lines 144-157: four independent
`if`s, in source order (`reverse_*` never touches `offset`, so every guard
reads the pre-tick offset). -/
def check_bounds (a : App) (width height : ℚ) : App :=
  let a1 := if a.offset.2 > 0 then reverse_sy a else a
  let a2 := if a1.offset.2 < -(height - 16) then reverse_sy a1 else a1
  let a3 := if a2.offset.1 < -(width - 32) then reverse_sx a2 else a2
  let a4 := if a3.offset.1 > 0 then reverse_sx a3 else a3
  a4

/-- The state mutation of one scheduler tick, from `App::draw`
(`src/app.rs` lines 98-100): `check_bounds` then `offset += (sx, sy)`. -/
def tick (a : App) (width height : ℚ) : App :=
  let a1 := check_bounds a width height
  { a1 with offset := (a1.offset.1 + a1.sx, a1.offset.2 + a1.sy) }

/-- `App::is_scared` from `src/app.rs` lines 176-178:
`self.sx.abs() > 2.0 || self.sy.abs() > 2.0`.  `App::draw` renders the
scared pixel map exactly when this returns `true`. -/
def is_scared (a : App) : Bool :=
  decide (|a.sx| > 2) || decide (|a.sy| > 2)

/-! ## The standalone animation state, from `src/main.rs` -/

/-- `App` from `src/main.rs`: same physics fields plus the stored
`use_scared` mode flag. -/
structure MainApp where
  offset : ℚ × ℚ
  sx : ℚ
  sy : ℚ
  use_scared : Bool
  rng : ℕ → ℚ
  k : ℕ

/-- One `gen_range(0.0..1.0)` call on the `main.rs` state. -/
def main_gen_range (m : MainApp) : ℚ × MainApp :=
  (m.rng m.k, { m with k := m.k + 1 })

/-- `App::generate_magnitude` from `src/main.rs` lines 208-214: the odds
are `1.0 / 5.0` for BOTH axes (`is_x` picks only the burst value). -/
def main_generate_magnitude (m : MainApp) (default : ℚ) (is_x : Bool) : ℚ × MainApp :=
  let u := main_gen_range m
  (if u.1 < 1/5 then (if is_x then 20 else 5) else default, u.2)

/-- `App::reverse_sy` from `src/main.rs`. -/
def main_reverse_sy (m : MainApp) : MainApp :=
  let g := main_generate_magnitude m 1 false
  { g.2 with sy := -(fsignum m.sy) * g.1 }

/-- `App::reverse_sx` from `src/main.rs`. -/
def main_reverse_sx (m : MainApp) : MainApp :=
  let g := main_generate_magnitude m (3/2) true
  { g.2 with sx := -(fsignum m.sx) * g.1 }

/-- `App::get_speed` squared, from `src/main.rs` line 205-207: the source
computes `(sx*sx + sy*sy).sqrt()`; here we carry the radicand exactly.
`get_speed_real` below takes the square root over ℝ. -/
def get_speed_sq (sx sy : ℚ) : ℚ := sx * sx + sy * sy

/-- The mode-selection step of `App::draw` in `src/main.rs` lines 156-160:
`if get_speed() > 10.0 { use_scared = true } else if get_speed() <= 10.0
{ use_scared = false }`.  Since the speed and 10 are nonnegative,
`sqrt s > 10 ↔ s > 100` and `sqrt s ≤ 10 ↔ s ≤ 100`; the comparison is
embedded on the squares (`main_select_mode_real` certifies this). -/
def main_select_mode (m : MainApp) : MainApp :=
  if get_speed_sq m.sx m.sy > 100 then { m with use_scared := true }
  else if get_speed_sq m.sx m.sy ≤ 100 then { m with use_scared := false }
  else m

/-! ## The sprite loader, from `src/app.rs::load_to_pixel_map` -/

/-- The y-squashing of `load_to_pixel_map` (`src/app.rs` lines 37-38):
`offset = f64::from(y > 1.0) * 0.5; actual_y = y * offset`. -/
def actual_y (y : ℚ) : ℚ := y * ((if y > 1 then 1 else 0) * (1/2))

/-- The pixel-map key assigned to the source pixel at column `x`, row `y`. -/
def pixel_key (x y : ℕ) : ℚ × ℚ := ((x : ℚ), actual_y (y : ℚ))

/-- `enumerate_pixels` order of the image crate: row-major,
`(0,0), (1,0), …, (w-1,0), (0,1), …`. -/
def enumerate_pixels (w h : ℕ) : List (ℕ × ℕ) :=
  (List.range h).flatMap (fun y => (List.range w).map (fun x => (x, y)))

/-- Hash-map insertion on an association-list carrier: the new binding
replaces any previous binding of the same key. -/
def pmInsert {K V : Type} [DecidableEq K] (m : List (K × V)) (k : K) (v : V) :
    List (K × V) :=
  (k, v) :: m.filter (fun e => decide (e.1 ≠ k))

/-- Hash-map lookup on the association-list carrier (first match is the
most recent insertion). -/
def assoc_lookup {K V : Type} [DecidableEq K] : List (K × V) → K → Option V
  | [], _ => none
  | e :: es, k => if e.1 = k then some e.2 else assoc_lookup es k

/-- `load_to_pixel_map` from `src/app.rs` lines 22-49, for an image of
width `w`, height `h` and pixel colors `pix`: every source pixel is mapped
to `pixel_key` in `enumerate_pixels` order and collected into a hash map
(later insertions overwrite earlier ones at an equal key). -/
def load_to_pixel_map {C : Type} (w h : ℕ) (pix : ℕ → ℕ → C) :
    List ((ℚ × ℚ) × C) :=
  (enumerate_pixels w h).foldl (fun m p => pmInsert m (pixel_key p.1 p.2) (pix p.1 p.2)) []

/-! ## The session registry, from `src/server.rs` -/

/-- The registry removal performed by `AppServer::channel_close` and the
quit branch of `AppServer::data`: `self.clients.lock().await.remove(&self.id)`.
`HashMap::remove` deletes the binding of `id` when present and is a no-op
otherwise (its ignored return is the only difference). -/
def registry_remove {S : Type} (r : List (ℕ × S)) (id : ℕ) : List (ℕ × S) :=
  r.filter (fun e => decide (e.1 ≠ id))

/-- `AppServer::data` from `src/server.rs` lines 183-203, restricted to its
registry effect: input `b"q"` (byte 113) removes the sender's own entry;
every other input leaves the registry untouched. -/
def handle_data {S : Type} (r : List (ℕ × S)) (id : ℕ) (input : List ℕ) :
    List (ℕ × S) :=
  if input = [113] then registry_remove r id else r

/-- Rebind `id` to `v` (the in-place `terminal.resize` mutation). -/
def registry_update {S : Type} (r : List (ℕ × S)) (id : ℕ) (v : S) :
    List (ℕ × S) :=
  r.map (fun e => if e.1 = id then (e.1, v) else e)

/-- `AppServer::window_change_request` from `src/server.rs` lines 205-226,
restricted to its registry effect: `clients.get_mut(&self.id).unwrap()`
then `terminal.resize(rect)`.  `none` models the `unwrap` panic on an
absent id; `resize_fn s (w, h)` is the resized session. -/
def window_change_request {S : Type} (resize_fn : S → ℕ × ℕ → S)
    (r : List (ℕ × S)) (id w h : ℕ) : Option (List (ℕ × S)) :=
  match assoc_lookup r id with
  | none => none
  | some s => some (registry_update r id (resize_fn s (w, h)))

/-- `AppServer::pty_request` from `src/server.rs` lines 228-265, restricted
to its registry effect: identical lookup-`unwrap`-resize sequence. -/
def pty_request {S : Type} (resize_fn : S → ℕ × ℕ → S)
    (r : List (ℕ × S)) (id w h : ℕ) : Option (List (ℕ × S)) :=
  match assoc_lookup r id with
  | none => none
  | some s => some (registry_update r id (resize_fn s (w, h)))

/-! ## Concrete states used in counterexamples and witnesses -/

/-- The `src/app.rs` state used in the C1 counterexample: velocity (3, 0). -/
def appC1 : App := ⟨(0, 0), 3, 0, fun _ => 0, 0⟩

/-- A state about to reflect on the top y bound: offset (0, 5). -/
def appC2 : App := ⟨(0, 5), -3/2, -1, fun _ => 0, 0⟩

/-- The initial `src/server.rs` session state (offset (0,0), velocity
(-1.5, -1.0)) with a deterministic sample stream. -/
def app0 : App := ⟨(0, 0), -3/2, -1, fun _ => 0, 0⟩

/-- A `src/main.rs` state whose next uniform sample is 3/10. -/
def mC3 : MainApp := ⟨(0, 0), -3/2, -1, false, fun _ => 3/10, 0⟩

/-! ## Helper lemmas -/

theorem assoc_lookup_filter_ne {K V : Type} [DecidableEq K]
    (r : List (K × V)) (i j : K) (h : j ≠ i) :
    assoc_lookup (r.filter (fun e => decide (e.1 ≠ i))) j = assoc_lookup r j := by
  induction r with
  | nil => rfl
  | cons e es ih =>
    rw [List.filter_cons]
    by_cases hk : e.1 = i
    · rw [if_neg (by simp [hk]), ih]
      have hj : e.1 ≠ j := fun hh => h (hh ▸ hk)
      simp only [assoc_lookup]
      rw [if_neg hj]
    · rw [if_pos (by simp [hk])]
      simp only [assoc_lookup]
      by_cases hj : e.1 = j
      · rw [if_pos hj, if_pos hj]
      · rw [if_neg hj, if_neg hj, ih]

/-- Bridge between the squared-speed embedding and the source's
`get_speed() > 10.0`: since both sides of the source comparison are
nonnegative, comparing the square against 100 is exact. -/
theorem main_select_mode_real (m : MainApp) :
    (main_select_mode m).use_scared = true ↔
      10 < Real.sqrt ((m.sx : ℝ) * m.sx + (m.sy : ℝ) * m.sy) := by
  have hsq : ((get_speed_sq m.sx m.sy : ℚ) : ℝ) = (m.sx : ℝ) * m.sx + (m.sy : ℝ) * m.sy := by
    simp [get_speed_sq]
  have hiff : 10 < Real.sqrt ((m.sx : ℝ) * m.sx + (m.sy : ℝ) * m.sy) ↔
      100 < get_speed_sq m.sx m.sy := by
    rw [Real.lt_sqrt (by norm_num : (0:ℝ) ≤ 10), ← hsq]
    constructor
    · intro hlt
      exact_mod_cast (by norm_num at hlt ⊢; exact_mod_cast hlt :
        (100:ℝ) < ((get_speed_sq m.sx m.sy : ℚ) : ℝ))
    · intro hlt
      have : (100:ℝ) < ((get_speed_sq m.sx m.sy : ℚ) : ℝ) := by exact_mod_cast hlt
      norm_num at this ⊢
      exact this
  rw [hiff]
  unfold main_select_mode
  by_cases h1 : get_speed_sq m.sx m.sy > 100
  · simp [h1]
  · simp [h1, le_of_not_lt h1]

theorem fsignum_of_neg {s : ℚ} (h : s < 0) : fsignum s = -1 := if_pos h

theorem fsignum_of_nonneg {s : ℚ} (h : ¬ s < 0) : fsignum s = 1 := if_neg h

theorem fsignum_ne_neg (s : ℚ) : fsignum s ≠ -(fsignum s) := by
  by_cases hs : s < 0
  · rw [fsignum_of_neg hs]; norm_num
  · rw [fsignum_of_nonneg hs]; norm_num

theorem fsignum_neg_mul (s : ℚ) {m : ℚ} (hm : 0 < m) :
    fsignum (-(fsignum s) * m) = -(fsignum s) := by
  by_cases hs : s < 0
  · rw [fsignum_of_neg hs]
    simp only [neg_neg, one_mul]
    exact fsignum_of_nonneg (not_lt.mpr hm.le)
  · rw [fsignum_of_nonneg hs]
    exact fsignum_of_neg (by linarith)

theorem fsignum_mul_self (s : ℚ) {m : ℚ} (hm : 0 < m) :
    fsignum (fsignum s * m) = fsignum s := by
  by_cases hs : s < 0
  · rw [fsignum_of_neg hs]
    exact fsignum_of_neg (by linarith)
  · rw [fsignum_of_nonneg hs]
    simp only [one_mul]
    exact fsignum_of_nonneg (not_lt.mpr hm.le)

theorem generate_magnitude_pos (a : App) {d : ℚ} (is_x : Bool) (hd : 0 < d) :
    0 < (generate_magnitude a d is_x).1 := by
  unfold generate_magnitude gen_range
  cases is_x <;> dsimp only <;> split_ifs <;> norm_num
  all_goals exact hd

theorem magX_pos (a : App) : 0 < (generate_magnitude a (3/2) true).1 :=
  generate_magnitude_pos a true (by norm_num)

theorem magY_pos (a : App) : 0 < (generate_magnitude a 1 false).1 :=
  generate_magnitude_pos a false (by norm_num)

theorem reverse_sx_sx (a : App) :
    (reverse_sx a).sx = -(fsignum a.sx) * (generate_magnitude a (3/2) true).1 := rfl

theorem reverse_sy_sy (a : App) :
    (reverse_sy a).sy = -(fsignum a.sy) * (generate_magnitude a 1 false).1 := rfl

theorem ite_reverse_sy_offset (c : Prop) [Decidable c] (b : App) :
    (if c then reverse_sy b else b).offset = b.offset := by split <;> rfl

theorem ite_reverse_sy_sx (c : Prop) [Decidable c] (b : App) :
    (if c then reverse_sy b else b).sx = b.sx := by split <;> rfl

theorem ite_reverse_sx_offset (c : Prop) [Decidable c] (b : App) :
    (if c then reverse_sx b else b).offset = b.offset := by split <;> rfl

theorem ite_reverse_sx_sy (c : Prop) [Decidable c] (b : App) :
    (if c then reverse_sx b else b).sy = b.sy := by split <;> rfl

/-- The effect on `sx` of the two x-axis guards of `check_bounds`, over an
arbitrary pre-state `b` and guard propositions `p`, `q`: the sign of `sx`
flips iff exactly one guard holds, and any reflection writes
`-sign(old) * magnitude` with a positive magnitude. -/
theorem xsteps_sx_spec (b : App) (p q : Prop) [Decidable p] [Decidable q] :
    (fsignum (if q then reverse_sx (if p then reverse_sx b else b)
              else if p then reverse_sx b else b).sx = -(fsignum b.sx) ↔
       (p ∧ ¬ q) ∨ (q ∧ ¬ p)) ∧
    ((p ∧ ¬ q) ∨ (q ∧ ¬ p) →
       ∃ m : ℚ, 0 < m ∧ (if q then reverse_sx (if p then reverse_sx b else b)
              else if p then reverse_sx b else b).sx = -(fsignum b.sx) * m) := by
  by_cases hp : p <;> by_cases hq : q
  · rw [if_pos hq, if_pos hp]
    have h3 : fsignum (reverse_sx b).sx = -(fsignum b.sx) := by
      rw [reverse_sx_sx]; exact fsignum_neg_mul b.sx (magX_pos b)
    have h4 : fsignum (reverse_sx (reverse_sx b)).sx = fsignum b.sx := by
      rw [reverse_sx_sx (reverse_sx b), h3, neg_neg]
      exact fsignum_mul_self b.sx (magX_pos (reverse_sx b))
    refine ⟨iff_of_false ?_ ?_, ?_⟩
    · rw [h4]; exact fsignum_ne_neg b.sx
    · rintro (⟨_, hq'⟩ | ⟨_, hp'⟩)
      exacts [hq' hq, hp' hp]
    · rintro (⟨_, hq'⟩ | ⟨_, hp'⟩)
      exacts [absurd hq hq', absurd hp hp']
  · rw [if_neg hq, if_pos hp]
    have h3 : fsignum (reverse_sx b).sx = -(fsignum b.sx) := by
      rw [reverse_sx_sx]; exact fsignum_neg_mul b.sx (magX_pos b)
    exact ⟨iff_of_true h3 (Or.inl ⟨hp, hq⟩),
      fun _ => ⟨_, magX_pos b, reverse_sx_sx b⟩⟩
  · rw [if_pos hq, if_neg hp]
    have h3 : fsignum (reverse_sx b).sx = -(fsignum b.sx) := by
      rw [reverse_sx_sx]; exact fsignum_neg_mul b.sx (magX_pos b)
    exact ⟨iff_of_true h3 (Or.inr ⟨hq, hp⟩),
      fun _ => ⟨_, magX_pos b, reverse_sx_sx b⟩⟩
  · rw [if_neg hq, if_neg hp]
    refine ⟨iff_of_false (fsignum_ne_neg b.sx) ?_, ?_⟩
    · rintro (⟨hp', _⟩ | ⟨hq', _⟩)
      exacts [hp hp', hq hq']
    · rintro (⟨hp', _⟩ | ⟨hq', _⟩)
      exacts [absurd hp' hp, absurd hq' hq]

/-- Same as `xsteps_sx_spec` for the y axis. -/
theorem xsteps_sy_spec (b : App) (p q : Prop) [Decidable p] [Decidable q] :
    (fsignum (if q then reverse_sy (if p then reverse_sy b else b)
              else if p then reverse_sy b else b).sy = -(fsignum b.sy) ↔
       (p ∧ ¬ q) ∨ (q ∧ ¬ p)) ∧
    ((p ∧ ¬ q) ∨ (q ∧ ¬ p) →
       ∃ m : ℚ, 0 < m ∧ (if q then reverse_sy (if p then reverse_sy b else b)
              else if p then reverse_sy b else b).sy = -(fsignum b.sy) * m) := by
  by_cases hp : p <;> by_cases hq : q
  · rw [if_pos hq, if_pos hp]
    have h3 : fsignum (reverse_sy b).sy = -(fsignum b.sy) := by
      rw [reverse_sy_sy]; exact fsignum_neg_mul b.sy (magY_pos b)
    have h4 : fsignum (reverse_sy (reverse_sy b)).sy = fsignum b.sy := by
      rw [reverse_sy_sy (reverse_sy b), h3, neg_neg]
      exact fsignum_mul_self b.sy (magY_pos (reverse_sy b))
    refine ⟨iff_of_false ?_ ?_, ?_⟩
    · rw [h4]; exact fsignum_ne_neg b.sy
    · rintro (⟨_, hq'⟩ | ⟨_, hp'⟩)
      exacts [hq' hq, hp' hp]
    · rintro (⟨_, hq'⟩ | ⟨_, hp'⟩)
      exacts [absurd hq hq', absurd hp hp']
  · rw [if_neg hq, if_pos hp]
    have h3 : fsignum (reverse_sy b).sy = -(fsignum b.sy) := by
      rw [reverse_sy_sy]; exact fsignum_neg_mul b.sy (magY_pos b)
    exact ⟨iff_of_true h3 (Or.inl ⟨hp, hq⟩),
      fun _ => ⟨_, magY_pos b, reverse_sy_sy b⟩⟩
  · rw [if_pos hq, if_neg hp]
    have h3 : fsignum (reverse_sy b).sy = -(fsignum b.sy) := by
      rw [reverse_sy_sy]; exact fsignum_neg_mul b.sy (magY_pos b)
    exact ⟨iff_of_true h3 (Or.inr ⟨hq, hp⟩),
      fun _ => ⟨_, magY_pos b, reverse_sy_sy b⟩⟩
  · rw [if_neg hq, if_neg hp]
    refine ⟨iff_of_false (fsignum_ne_neg b.sy) ?_, ?_⟩
    · rintro (⟨hp', _⟩ | ⟨hq', _⟩)
      exacts [hp hp', hq hq']
    · rintro (⟨hp', _⟩ | ⟨hq', _⟩)
      exacts [absurd hp' hp, absurd hq' hq]

/-- `check_bounds` acts on `sy` exactly as the two y-axis guards of
`xsteps_sy_spec`, evaluated on the pre-tick offset. -/
theorem check_bounds_sy_spec (a : App) (w h : ℚ) :
    (fsignum (check_bounds a w h).sy = -(fsignum a.sy) ↔
       (a.offset.2 > 0 ∧ ¬ a.offset.2 < -(h - 16)) ∨
       (a.offset.2 < -(h - 16) ∧ ¬ a.offset.2 > 0)) ∧
    ((a.offset.2 > 0 ∧ ¬ a.offset.2 < -(h - 16)) ∨
       (a.offset.2 < -(h - 16) ∧ ¬ a.offset.2 > 0) →
       ∃ m : ℚ, 0 < m ∧ (check_bounds a w h).sy = -(fsignum a.sy) * m) := by
  have key : (check_bounds a w h).sy =
      (if a.offset.2 < -(h - 16) then reverse_sy (if a.offset.2 > 0 then reverse_sy a else a)
       else if a.offset.2 > 0 then reverse_sy a else a).sy := by
    unfold check_bounds
    simp only [ite_reverse_sx_sy, ite_reverse_sy_offset]
  rw [key]
  exact xsteps_sy_spec a (a.offset.2 > 0) (a.offset.2 < -(h - 16))

/-- `check_bounds` acts on `sx` exactly as the two x-axis guards of
`xsteps_sx_spec`, evaluated on the pre-tick offset. -/
theorem check_bounds_sx_spec (a : App) (w h : ℚ) :
    (fsignum (check_bounds a w h).sx = -(fsignum a.sx) ↔
       (a.offset.1 < -(w - 32) ∧ ¬ a.offset.1 > 0) ∨
       (a.offset.1 > 0 ∧ ¬ a.offset.1 < -(w - 32))) ∧
    ((a.offset.1 < -(w - 32) ∧ ¬ a.offset.1 > 0) ∨
       (a.offset.1 > 0 ∧ ¬ a.offset.1 < -(w - 32)) →
       ∃ m : ℚ, 0 < m ∧ (check_bounds a w h).sx = -(fsignum a.sx) * m) := by
  unfold check_bounds
  simp only [ite_reverse_sy_offset, ite_reverse_sx_offset]
  set b : App := if a.offset.2 < -(h - 16)
      then reverse_sy (if a.offset.2 > 0 then reverse_sy a else a)
      else if a.offset.2 > 0 then reverse_sy a else a with hb
  have hbsx : b.sx = a.sx := by
    rw [hb, ite_reverse_sy_sx, ite_reverse_sy_sx]
  rw [← hbsx]
  exact xsteps_sx_spec b (a.offset.1 < -(w - 32)) (a.offset.1 > 0)

/-! ## Claim theorems: mode selection and registry -/

/-- C1 counterexample: at velocity (3, 0) the SSH-server render path
(`App::draw` via `App::is_scared`) selects the alarmed sprite, yet the
Euclidean speed is sqrt 9 = 3 ≤ 10 — so the alarmed field is NOT selected
iff sqrt(sx² + sy²) > 10. -/
theorem C1_component_threshold_counterexample :
    is_scared appC1 = true ∧
      ¬ (10 < Real.sqrt ((appC1.sx : ℝ) * appC1.sx + (appC1.sy : ℝ) * appC1.sy)) := by
  constructor
  · norm_num [is_scared, appC1]
  · have h9 : ((appC1.sx : ℝ)) * appC1.sx + (appC1.sy : ℝ) * appC1.sy = 9 := by
      norm_num [appC1]
    rw [h9, show (9:ℝ) = 3 ^ 2 by norm_num, Real.sqrt_sq (by norm_num : (0:ℝ) ≤ 3)]
    norm_num

/-- C1 (amended): the two lineage variants use different mode thresholds.
The SSH-server variant (`src/app.rs::is_scared`) selects the alarmed
sprite iff `|sx| > 2 ∨ |sy| > 2` (component-wise); only the standalone
variant (`src/main.rs`) selects it iff `sqrt(sx² + sy²) > 10`
(Euclidean). -/
theorem C1_mode_threshold_per_variant :
    (∀ a : App, is_scared a = true ↔ 2 < |a.sx| ∨ 2 < |a.sy|) ∧
    (∀ m : MainApp, (main_select_mode m).use_scared = true ↔
       10 < Real.sqrt ((m.sx : ℝ) * m.sx + (m.sy : ℝ) * m.sy)) := by
  refine ⟨fun a => ?_, fun m => main_select_mode_real m⟩
  simp [is_scared]

/-- C6: registry removal is idempotent — removing an absent id leaves the
registry unchanged, a second removal is a no-op, and in particular the
size changes only on the first call. -/
theorem C6_remove_idempotent {S : Type} (r : List (ℕ × S)) (id : ℕ) :
    (id ∉ r.map Prod.fst → registry_remove r id = r) ∧
    registry_remove (registry_remove r id) id = registry_remove r id ∧
    (registry_remove (registry_remove r id) id).length = (registry_remove r id).length := by
  have hidem : registry_remove (registry_remove r id) id = registry_remove r id := by
    unfold registry_remove
    exact List.filter_eq_self.mpr fun a ha => (List.mem_filter.mp ha).2
  refine ⟨fun hid => ?_, hidem, by rw [hidem]⟩
  unfold registry_remove
  apply List.filter_eq_self.mpr
  intro e he
  simp only [decide_eq_true_eq]
  intro hh
  exact hid (hh ▸ List.mem_map_of_mem Prod.fst he)

/-- C6 witness at a concrete registry. -/
theorem C6_remove_idempotent_witness :
    registry_remove [((1:ℕ), true)] 2 = [(1, true)] ∧
    registry_remove (registry_remove [((1:ℕ), true)] 1) 1 =
      registry_remove [((1:ℕ), true)] 1 :=
  ⟨(C6_remove_idempotent [((1:ℕ), true)] 2).1 (by decide),
   (C6_remove_idempotent [((1:ℕ), true)] 1).2.1⟩

/-- C7: the quit-signal branch of `AppServer::data` removes at most the
sender's own registry entry: every other session's entry is looked up
unchanged, and no entry not already present is introduced. -/
theorem C7_quit_isolated {S : Type} (r : List (ℕ × S)) (id : ℕ) (input : List ℕ) :
    (∀ j, j ≠ id → assoc_lookup (handle_data r id input) j = assoc_lookup r j) ∧
    (∀ e, e ∈ handle_data r id input → e ∈ r) := by
  unfold handle_data
  by_cases hq : input = [113]
  · simp only [hq, if_pos rfl]
    exact ⟨fun j hj => assoc_lookup_filter_ne r id j hj,
      fun e he => (List.mem_filter.mp he).1⟩
  · simp [hq]

/-- C7 witness: with sessions 1 and 2 registered, session 1 quitting
leaves session 2's entry readable unchanged. -/
theorem C7_quit_isolated_witness :
    assoc_lookup (handle_data [((1:ℕ), true), (2, false)] 1 [113]) 2 =
      assoc_lookup [((1:ℕ), true), (2, false)] 2 :=
  (C7_quit_isolated [((1:ℕ), true), (2, false)] 1 [113]).1 2 (by decide)

/-- C8: mode selection is deterministic and history-free in both variants:
states with equal velocity pairs select equal modes, independent of
offsets, tick counts, random cursors, or (for `main.rs`) the previously
stored flag. -/
theorem C8_mode_history_free :
    (∀ a₁ a₂ : App, a₁.sx = a₂.sx → a₁.sy = a₂.sy → is_scared a₁ = is_scared a₂) ∧
    (∀ m₁ m₂ : MainApp, m₁.sx = m₂.sx → m₁.sy = m₂.sy →
       (main_select_mode m₁).use_scared = (main_select_mode m₂).use_scared) := by
  constructor
  · intro a₁ a₂ hx hy
    simp [is_scared, hx, hy]
  · intro m₁ m₂ hx hy
    unfold main_select_mode
    rw [hx, hy]
    by_cases h1 : get_speed_sq m₂.sx m₂.sy > 100
    · simp [h1]
    · simp [h1, le_of_not_lt h1]

/-- C8 witness: two states with velocity (3, 0) but different offsets,
cursors, and stored flags select the same mode. -/
theorem C8_mode_history_free_witness :
    (main_select_mode ⟨(0, 0), 3, 0, false, fun _ => 0, 0⟩).use_scared =
      (main_select_mode ⟨(5, -7), 3, 0, true, fun _ => 0, 99⟩).use_scared :=
  C8_mode_history_free.2 ⟨(0, 0), 3, 0, false, fun _ => 0, 0⟩
    ⟨(5, -7), 3, 0, true, fun _ => 0, 99⟩ rfl rfl

/-- C9: the resize handlers are not total on absent ids — when the session
id is absent, both `window_change_request` and `pty_request` hit the
`unwrap` panic (modelled by `none`); when it is present, both succeed. -/
theorem C9_resize_unwrap {S : Type} (f : S → ℕ × ℕ → S)
    (r : List (ℕ × S)) (id w h : ℕ) :
    (assoc_lookup r id = none →
       window_change_request f r id w h = none ∧ pty_request f r id w h = none) ∧
    ((assoc_lookup r id).isSome →
       (window_change_request f r id w h).isSome ∧ (pty_request f r id w h).isSome) := by
  constructor
  · intro hnone
    simp [window_change_request, pty_request, hnone]
  · intro hsome
    rcases Option.isSome_iff_exists.mp hsome with ⟨s, hs⟩
    simp [window_change_request, pty_request, hs]

/-- A tick in which no boundary guard holds is a pure Euler step. -/
theorem tick_of_no_guard (a : App) (w h : ℚ)
    (h1 : ¬ a.offset.2 > 0) (h2 : ¬ a.offset.2 < -(h - 16))
    (h3 : ¬ a.offset.1 < -(w - 32)) (h4 : ¬ a.offset.1 > 0) :
    tick a w h = { a with offset := (a.offset.1 + a.sx, a.offset.2 + a.sy) } := by
  have hcb : check_bounds a w h = a := by
    unfold check_bounds
    simp only [if_neg h1, if_neg h2, if_neg h3, if_neg h4]
  unfold tick
  rw [hcb]

/-- Closed form of the first 50 ticks from the initial session state on a
200×100 target: no guard ever fires and the offset is k·(-3/2, -1). -/
theorem iterate_tick_app0 (k : ℕ) (hk : k ≤ 50) :
    (fun s => tick s 200 100)^[k] app0 =
      { offset := (-(3/2) * (k : ℚ), -(k : ℚ)), sx := -3/2, sy := -1,
        rng := fun _ => 0, k := 0 } := by
  induction k with
  | zero =>
    simp only [Function.iterate_zero, id_eq, app0]
    norm_num
  | succ n ih =>
    have hn49 : (n : ℚ) ≤ 49 := by
      exact_mod_cast Nat.succ_le_succ_iff.mp hk
    rw [Function.iterate_succ_apply', ih (Nat.le_of_succ_le hk)]
    set st : App := ({ offset := (-(3/2) * (n : ℚ), -(n : ℚ)), sx := -3/2, sy := -1, rng := fun _ => 0, k := 0 } : App) with hst
    have hn0 : (0 : ℚ) ≤ (n : ℚ) := Nat.cast_nonneg n
    have h1 : ¬ st.offset.2 > 0 := by
      show ¬ (0 < -(n : ℚ))
      rw [not_lt]
      linarith
    have h2 : ¬ st.offset.2 < -(100 - 16 : ℚ) := by
      show ¬ (-(n : ℚ) < -(100 - 16 : ℚ))
      rw [not_lt]
      linarith
    have h3 : ¬ st.offset.1 < -(200 - 32 : ℚ) := by
      show ¬ (-(3/2) * (n : ℚ) < -(200 - 32 : ℚ))
      rw [not_lt]
      linarith
    have h4 : ¬ st.offset.1 > 0 := by
      show ¬ (0 < -(3/2) * (n : ℚ))
      rw [not_lt]
      linarith
    rw [tick_of_no_guard st 200 100 h1 h2 h3 h4, hst]
    simp only [App.mk.injEq, Prod.mk.injEq, and_true, true_and]
    constructor <;> push_cast <;> ring

/-- C2: in a tick of `src/app.rs`, the y-velocity's sign flips exactly
when exactly one of the guards offset.y > 0, offset.y < -(H-16) held
before the tick, and any reflected component equals
-sign(old) * magnitude with a positive (re-rolled) magnitude; same for x
with its guards offset.x < -(W-32), offset.x > 0. -/
theorem C2_reflection_sign_flip (a : App) (w h : ℚ) :
    ((fsignum (tick a w h).sy = -(fsignum a.sy)) ↔
       (a.offset.2 > 0 ∧ ¬ a.offset.2 < -(h - 16)) ∨
       (a.offset.2 < -(h - 16) ∧ ¬ a.offset.2 > 0)) ∧
    ((a.offset.2 > 0 ∧ ¬ a.offset.2 < -(h - 16)) ∨
       (a.offset.2 < -(h - 16) ∧ ¬ a.offset.2 > 0) →
       ∃ m : ℚ, 0 < m ∧ (tick a w h).sy = -(fsignum a.sy) * m) ∧
    ((fsignum (tick a w h).sx = -(fsignum a.sx)) ↔
       (a.offset.1 < -(w - 32) ∧ ¬ a.offset.1 > 0) ∨
       (a.offset.1 > 0 ∧ ¬ a.offset.1 < -(w - 32))) ∧
    ((a.offset.1 < -(w - 32) ∧ ¬ a.offset.1 > 0) ∨
       (a.offset.1 > 0 ∧ ¬ a.offset.1 < -(w - 32)) →
       ∃ m : ℚ, 0 < m ∧ (tick a w h).sx = -(fsignum a.sx) * m) := by
  have htick_sy : (tick a w h).sy = (check_bounds a w h).sy := rfl
  have htick_sx : (tick a w h).sx = (check_bounds a w h).sx := rfl
  rw [htick_sy, htick_sx]
  obtain ⟨hy1, hy2⟩ := check_bounds_sy_spec a w h
  obtain ⟨hx1, hx2⟩ := check_bounds_sx_spec a w h
  exact ⟨hy1, hy2, hx1, hx2⟩

/-- C2 witness: at offset (0, 5) with h = 24, only the guard
offset.y > 0 holds, so the tick reflects sy to -sign(old)·magnitude. -/
theorem C2_reflection_sign_flip_witness :
    ∃ m : ℚ, 0 < m ∧ (tick appC2 80 24).sy = -(fsignum appC2.sy) * m :=
  (C2_reflection_sign_flip appC2 80 24).2.1
    (Or.inl ⟨by norm_num [appC2], by norm_num [appC2]⟩)

/-- C3 counterexample: in the `src/main.rs` variant, at uniform sample
u = 3/10 < 1/2 an x-axis reflection keeps the cruise magnitude 1.5
(the resulting sx is 3/2, not ±20), because `main.rs` uses odds 1/5 for
both axes — refuting the claimed burst probability 1/2 for x. -/
theorem C3_main_x_odds_counterexample :
    (3:ℚ)/10 < 1/2 ∧ (main_reverse_sx mC3).sx = 3/2 ∧ ((3:ℚ)/2 ≠ 20) := by
  refine ⟨by norm_num, ?_, by norm_num⟩
  norm_num [main_reverse_sx, main_generate_magnitude, main_gen_range, mC3, fsignum]

/-- C3 (amended): on reflection, `src/app.rs` resamples the x magnitude to
20 when u < 1/2 and 1.5 otherwise, and the y magnitude to 5 when u < 1/5
and 1 otherwise; the `src/main.rs` variant uses burst odds 1/5 on BOTH
axes (x: 20 when u < 1/5, else 1.5; y: 5 when u < 1/5, else 1). -/
theorem C3_magnitude_odds_per_variant :
    (∀ a : App, (reverse_sx a).sx =
       -(fsignum a.sx) * (if a.rng a.k < 1/2 then 20 else 3/2)) ∧
    (∀ a : App, (reverse_sy a).sy =
       -(fsignum a.sy) * (if a.rng a.k < 1/5 then 5 else 1)) ∧
    (∀ m : MainApp, (main_reverse_sx m).sx =
       -(fsignum m.sx) * (if m.rng m.k < 1/5 then 20 else 3/2)) ∧
    (∀ m : MainApp, (main_reverse_sy m).sy =
       -(fsignum m.sy) * (if m.rng m.k < 1/5 then 5 else 1)) :=
  ⟨fun _ => rfl, fun _ => rfl, fun _ => rfl, fun _ => rfl⟩

/-- C4: a tick in which no boundary guard holds leaves the velocity (and
the random cursor) unchanged and performs the Euler step
offset += (sx, sy); iterating 50 such ticks from offset (0,0) at velocity
(-1.5, -1.0) (width 200, height 100, so no guard ever fires) yields
offset (-75, -50). -/
theorem C4_euler_integration :
    (∀ (a : App) (w h : ℚ),
        ¬ a.offset.2 > 0 → ¬ a.offset.2 < -(h - 16) →
        ¬ a.offset.1 < -(w - 32) → ¬ a.offset.1 > 0 →
        (tick a w h).sx = a.sx ∧ (tick a w h).sy = a.sy ∧
        (tick a w h).k = a.k ∧
        (tick a w h).offset = (a.offset.1 + a.sx, a.offset.2 + a.sy)) ∧
    ((fun s => tick s 200 100)^[50] app0).offset = (-75, -50) := by
  constructor
  · intro a w h h1 h2 h3 h4
    rw [tick_of_no_guard a w h h1 h2 h3 h4]
    exact ⟨rfl, rfl, rfl, rfl⟩
  · rw [iterate_tick_app0 50 le_rfl]
    norm_num

/-- C4 witness: one guard-free tick from the initial session state adds
the velocity to the offset. -/
theorem C4_euler_integration_witness :
    (tick app0 200 100).offset = (app0.offset.1 + app0.sx, app0.offset.2 + app0.sy) :=
  (C4_euler_integration.1 app0 200 100 (by norm_num [app0]) (by norm_num [app0])
    (by norm_num [app0]) (by norm_num [app0])).2.2.2

theorem actual_y_eq (y : ℚ) : actual_y y = if 1 < y then y / 2 else 0 := by
  unfold actual_y
  split_ifs <;> ring

theorem assoc_lookup_pmInsert_self {K V : Type} [DecidableEq K]
    (m : List (K × V)) (k : K) (v : V) :
    assoc_lookup (pmInsert m k v) k = some v := by
  unfold pmInsert
  simp [assoc_lookup]

theorem assoc_lookup_pmInsert_ne {K V : Type} [DecidableEq K]
    (m : List (K × V)) (k' k : K) (v : V) (h : k' ≠ k) :
    assoc_lookup (pmInsert m k' v) k = assoc_lookup m k := by
  unfold pmInsert
  simp only [assoc_lookup]
  rw [if_neg h]
  exact assoc_lookup_filter_ne m k' k (fun hh => h hh.symm)

/-- Folding insertions whose keys all differ from `key` does not change
the lookup at `key`. -/
theorem lookup_foldl_insert_of_ne {C : Type} (pix : ℕ → ℕ → C)
    (l : List (ℕ × ℕ)) (m : List ((ℚ × ℚ) × C)) (key : ℚ × ℚ)
    (hl : ∀ p ∈ l, pixel_key p.1 p.2 ≠ key) :
    assoc_lookup
        (l.foldl (fun m p => pmInsert m (pixel_key p.1 p.2) (pix p.1 p.2)) m) key =
      assoc_lookup m key := by
  induction l generalizing m with
  | nil => rfl
  | cons p ps ih =>
    rw [List.foldl_cons, ih _ (fun q hq => hl q (List.mem_cons_of_mem p hq))]
    exact assoc_lookup_pmInsert_ne m (pixel_key p.1 p.2) key (pix p.1 p.2)
      (hl p (List.mem_cons_self p ps))

/-- After folding row 1 of the image, column `c` of that row is bound at
key `(c, 0)`, whatever map the fold started from. -/
theorem lookup_foldl_row1 {C : Type} (pix : ℕ → ℕ → C) (w : ℕ) :
    ∀ (m : List ((ℚ × ℚ) × C)) (c : ℕ), c < w →
      assoc_lookup (((List.range w).map (fun x => (x, 1))).foldl
          (fun m p => pmInsert m (pixel_key p.1 p.2) (pix p.1 p.2)) m)
        ((c : ℚ), 0) = some (pix c 1) := by
  induction w with
  | zero => exact fun m c hc => absurd hc (Nat.not_lt_zero c)
  | succ n ih =>
    intro m c hc
    rw [List.range_succ, List.map_append, List.foldl_append]
    simp only [List.map_cons, List.map_nil, List.foldl_cons, List.foldl_nil]
    have hkey : pixel_key n 1 = ((n : ℚ), 0) := by
      unfold pixel_key
      rw [actual_y_eq]
      norm_num
    rw [hkey]
    by_cases hcn : c = n
    · subst hcn
      exact assoc_lookup_pmInsert_self _ _ _
    · have hne : ((n : ℚ), (0 : ℚ)) ≠ ((c : ℚ), 0) := by
        intro hcontra
        apply hcn
        have h' : (c : ℚ) = (n : ℚ) := (congrArg Prod.fst hcontra).symm
        exact_mod_cast h'
      rw [assoc_lookup_pmInsert_ne _ _ _ _ hne]
      exact ih m c (Nat.lt_of_le_of_ne (Nat.lt_succ_iff.mp hc) hcn)

/-- The first two rows of `enumerate_pixels`, in order. -/
theorem enumerate_pixels_two (w : ℕ) :
    enumerate_pixels w 2 =
      (List.range w).map (fun x => (x, 0)) ++ (List.range w).map (fun x => (x, 1)) := by
  unfold enumerate_pixels
  have h2 : List.range 2 = [0, 1] := by decide
  rw [h2]
  simp [List.flatMap_cons, List.flatMap_nil]

/-- C9 witness: on the empty registry the resize handlers panic. -/
theorem C9_resize_unwrap_witness :
    window_change_request (fun (s : Bool) _ => s) [] 0 80 24 = none ∧
    pty_request (fun (s : Bool) _ => s) [] 0 80 24 = none :=
  (C9_resize_unwrap (fun (s : Bool) _ => s) [] 0 80 24).1 rfl

/-- C5: the loader maps the source pixel at column `c`, row `r` to key
`(c, r·0.5·[r > 1])` — rows 0 and 1 collapse to y = 0, rows r > 1 map to
y = r/2 — and a SpriteField loaded from any 2×2 image has exactly 2
entries, both at y = 0, holding the row-1 colors (the colors stored under
the collapsed keys by the overwrite rule). -/
theorem C5_squash_rule_and_2x2 :
    (∀ x y : ℕ, pixel_key x y = ((x : ℚ), if 1 < y then (y : ℚ) / 2 else 0)) ∧
    (∀ (C : Type) (pix : ℕ → ℕ → C),
       load_to_pixel_map 2 2 pix = [((1, 0), pix 1 1), ((0, 0), pix 0 1)] ∧
       (load_to_pixel_map 2 2 pix).length = 2 ∧
       (∀ e ∈ load_to_pixel_map 2 2 pix, e.1.2 = 0) ∧
       assoc_lookup (load_to_pixel_map 2 2 pix) (0, 0) = some (pix 0 1) ∧
       assoc_lookup (load_to_pixel_map 2 2 pix) (1, 0) = some (pix 1 1)) := by
  have hkey : ∀ x y : ℕ, pixel_key x y = ((x : ℚ), if 1 < y then (y : ℚ) / 2 else 0) := by
    intro x y
    unfold pixel_key
    rw [actual_y_eq]
    simp [Nat.one_lt_cast]
  refine ⟨hkey, fun C pix => ?_⟩
  have heq : load_to_pixel_map 2 2 pix = [((1, 0), pix 1 1), ((0, 0), pix 0 1)] := by
    unfold load_to_pixel_map
    have henum : enumerate_pixels 2 2 = [(0, 0), (1, 0), (0, 1), (1, 1)] := by decide
    rw [henum]
    simp only [List.foldl_cons, List.foldl_nil]
    rw [hkey 0 0, hkey 1 0, hkey 0 1, hkey 1 1]
    have e1 : ((0 : ℚ × ℚ) = ((1:ℚ), (0:ℚ))) ↔ False := by norm_num [Prod.ext_iff]
    have e2 : (((1:ℚ), (0:ℚ)) = (0 : ℚ × ℚ)) ↔ False := by norm_num [Prod.ext_iff]
    norm_num [pmInsert, List.filter, e1, e2]
  refine ⟨heq, ?_, ?_, ?_, ?_⟩
  · rw [heq]
    rfl
  · rw [heq]
    intro e he
    simp only [List.mem_cons, List.not_mem_nil, or_false] at he
    rcases he with rfl | rfl <;> rfl
  · rw [heq]
    norm_num [assoc_lookup, Prod.mk.injEq]
  · rw [heq]
    norm_num [assoc_lookup, Prod.mk.injEq]

/-- C5 witness: the squash rule at pixel (3, 4) and the 2×2 round-trip
on a concrete image. -/
theorem C5_squash_rule_and_2x2_witness :
    pixel_key 3 4 = ((3 : ℚ), 2) ∧
    assoc_lookup (load_to_pixel_map 2 2 (fun x y => x + 10 * y)) (0, 0) = some 10 := by
  constructor
  · rw [C5_squash_rule_and_2x2.1 3 4]
    norm_num
  · exact (C5_squash_rule_and_2x2.2 ℕ (fun x y => x + 10 * y)).2.2.2.1

/-- C10: pixels are inserted in row-major order and a later insertion
overwrites an earlier one at an equal key, so in any image with at least
two rows the binding at the collapsed key `(c, 0)` is the row-1 color —
row 0's color never survives in a column where row 1 exists. -/
theorem C10_row_one_overwrites {C : Type} (w h : ℕ) (pix : ℕ → ℕ → C) (c : ℕ)
    (hc : c < w) (hh : 2 ≤ h) :
    assoc_lookup (load_to_pixel_map w h pix) ((c : ℚ), 0) = some (pix c 1) := by
  obtain ⟨t, rfl⟩ : ∃ t, h = 2 + t := ⟨h - 2, by omega⟩
  unfold load_to_pixel_map enumerate_pixels
  rw [List.range_add, List.flatMap_append, List.foldl_append]
  rw [lookup_foldl_insert_of_ne]
  · have hrows : (List.range 2).flatMap (fun y => (List.range w).map (fun x => (x, y))) =
        (List.range w).map (fun x => (x, 0)) ++ (List.range w).map (fun x => (x, 1)) :=
      enumerate_pixels_two w
    rw [hrows, List.foldl_append]
    exact lookup_foldl_row1 pix w _ c hc
  · intro p hp
    simp only [List.mem_flatMap, List.mem_map, List.mem_range] at hp
    obtain ⟨y, ⟨j, hj, rfl⟩, x, hx, rfl⟩ := hp
    unfold pixel_key
    rw [actual_y_eq]
    intro hcontra
    have h1 : (1 : ℚ) < ((2 + j : ℕ) : ℚ) := by
      push_cast
      linarith [Nat.cast_nonneg (α := ℚ) j]
    rw [if_pos h1] at hcontra
    have h2 := congrArg Prod.snd hcontra
    simp only at h2
    linarith

/-- C10 witness: loading a 1×2 image whose pixel value is x + 10·y binds
key (0, 0) to the row-1 value 10. -/
theorem C10_row_one_overwrites_witness :
    assoc_lookup (load_to_pixel_map 1 2 (fun x y => x + 10 * y)) ((0 : ℚ), 0) =
      some 10 :=
  C10_row_one_overwrites 1 2 (fun x y => x + 10 * y) 0 (by norm_num) (by norm_num)

end RobertSsh
